import Mathlib

/-!
Baristafication: a bar module counting rofication notifications.

Shallow embedding of `baristafication.go`.

* Go `int` is the 64-bit two's complement integer: every arithmetic result is
  reduced by `wrapInt`.
* A Go `map[string]int` is an association list with one entry per key; the
  order of the list is one of the orders in which `range` may visit the map.
  The nil map is the empty list (Go reads of a nil map behave as reads of an
  empty one).
* `Stream` is a step function over the events the goroutine can observe; each
  step appends the calls it makes to a trace.
-/

namespace Baristafication

/-! ## Data model -/

/-- RoficationNotification data model (one record of the daemon reply). -/
structure RoficationNotification where
  Id : Int
  Summary : String
  Body : String
  Application : String
  Urgency : Int
  Actions : List String
deriving DecidableEq, Repr

/-- Reduction of an integer into the range of Go `int` (64 bits, two's
complement): the value every `int` operation yields. -/
def wrapInt (x : Int) : Int :=
  (x + 9223372036854775808) % 18446744073709551616 - 9223372036854775808

/-- Notifications grouped by application: key is the application, value the
number of notifications for it. -/
abbrev Notifications := List (String × Int)

/-- Map read `n[k]`: the stored value, or the zero value when `k` is absent. -/
def Notifications.get (n : Notifications) (k : String) : Int :=
  match List.lookup k n with
  | some c => c
  | none => 0

/-- Map write `n[k] = v`: replaces the entry of `k`, or adds one. -/
def Notifications.set : Notifications → String → Int → Notifications
  | [], k, v => [(k, v)]
  | (k', v') :: rest, k, v =>
    if k' = k then (k, v) :: rest else (k', v') :: Notifications.set rest k v

/-- Total returns the total number of unread notifications across all
categories: `t := 0; for _, c := range n { t += c }`, the entries visited in
the order of the list. -/
def Notifications.Total (n : Notifications) : Int :=
  List.foldl (fun t e => wrapInt (t + e.2)) 0 n

/-- Loop of `getNotifications` over the decoded records:
`count := info[n.Application]; count++; info[n.Application] = count`,
starting from the empty map `Notifications{}`. -/
def countByApplication (resp : List RoficationNotification) : Notifications :=
  List.foldl
    (fun info n => Notifications.set info n.Application
      (wrapInt (Notifications.get info n.Application + 1)))
    [] resp

/-- Invariant of the counting loop once the records whose applications are
`seen` have been processed: one entry per key, every read gives the number of
occurrences in `seen`, the keys are the names in `seen`, and the counts add up
to the number of records. -/
def Counted (acc : Notifications) (seen : List String) : Prop :=
  (acc.map Prod.fst).Nodup
  ∧ (∀ a, Notifications.get acc a = (seen.count a : Int))
  ∧ (∀ a, a ∈ acc.map Prod.fst ↔ a ∈ seen)
  ∧ (acc.map Prod.snd).sum = (seen.length : Int)

/-! ## Rendering rules and the module -/

/-- Error values seen by `Stream`: the sentinel `errCached`
(`errors.New("NothingChanged")`) or an error of the JSON decoder. The nil
error is `none : Option Err`. -/
inductive Err
  | errCached
  | decode (msg : String)
deriving DecidableEq, Repr

/-- A non-nil `bar.Output` as this package builds it: a text segment. The nil
output is `none : Option Output`. -/
inductive Output
  | text (s : String)
deriving DecidableEq, Repr

/-- The output is a text segment whose text contains `s` (nothing is
contained in the nil output). -/
def Output.Contains (o : Option Output) (s : String) : Prop :=
  match o with
  | some (Output.text t) => s.data <:+: t.data
  | none => False

/-- Type held by `outputFunc`: `func(Notifications) bar.Output`. -/
abbrev Rule := Notifications → Option Output

/-- Call `outputs.Textf(format, d)` for a format made of literal text `lead`
followed by one `%d` verb: the text is `lead` and the decimal rendering of
`d`. -/
def Textf (lead : String) (d : Int) : Output :=
  Output.text (lead ++ toString d)

/-- Module represents a regolith-rofication bar module. `outputFunc` is the
`value.Value` slot (`none` until the first `Set`), `scheduler` the instant
(nanoseconds) at which the scheduler is due to fire (`none` while not armed),
`interval` the refresh interval in seconds. -/
structure Module where
  outputFunc : Option Rule
  scheduler : Option Int
  interval : Int

/-- Output sets the output format for this module (`m.outputFunc.Set`). -/
def Module.Output (m : Module) (outputFunc : Rule) : Module :=
  { m with outputFunc := some outputFunc }

/-- New creates a Baristafication module: interval 10 and the default
rule. -/
def New : Module :=
  Module.Output { outputFunc := none, scheduler := none, interval := 10 }
    (fun n =>
      if Notifications.Total n = 0 then none
      else some (Textf "G5: " (Notifications.Total n)))

/-! ## One fetch -/

/-- Nanoseconds in `time.Second`. -/
def Second : Int := 1000000000

/-- What the outside world does during one call of `getNotifications`: the
clock reading (nanoseconds) at entry, whether `net.Dial` and `conn.Write`
succeed and how long they take, how long `Decode` blocks until the reply has
been read, and what `Decode` yields. -/
structure FetchEnv where
  now : Int
  dialOk : Bool
  dialTime : Int
  writeOk : Bool
  writeTime : Int
  readTime : Int
  reply : Except String (List RoficationNotification)

/-- Outcome of `getNotifications`: `fatal` when `log.Fatal` ends the process,
else the returned pair, the module with its scheduler armed, and the instant
of the return. -/
inductive FetchResult
  | fatal (msg : String)
  | ret (m : Module) (info : Notifications) (err : Option Err) (finished : Int)

/-- Instant at which the scheduler is due to fire once `getNotifications` has
returned (`none` when the process was ended). -/
def FetchResult.deadline : FetchResult → Option Int
  | FetchResult.fatal _ => none
  | FetchResult.ret m _ _ _ => m.scheduler

/-- Instant at which `getNotifications` returns (`none` when the process was
ended). -/
def FetchResult.finished : FetchResult → Option Int
  | FetchResult.fatal _ => none
  | FetchResult.ret _ _ _ t => some t

/-- One round trip to the daemon, statement by statement: dial, write
`"list\n"`, `m.scheduler.After(time.Duration(m.interval) * time.Second)`,
decode the reply, count the records by application. -/
def getNotifications (m : Module) (env : FetchEnv) : FetchResult :=
  let t1 := env.now + env.dialTime
  if !env.dialOk then FetchResult.fatal "Could not connect to rorification socket"
  else
    let t2 := t1 + env.writeTime
    if !env.writeOk then FetchResult.fatal "Could not send message to rorification socket"
    else
      let m1 := { m with scheduler := some (t2 + wrapInt (m.interval * Second)) }
      let t3 := t2 + env.readTime
      match env.reply with
      | Except.error e => FetchResult.ret m1 [] (some (Err.decode e)) t3
      | Except.ok resp => FetchResult.ret m1 (countByApplication resp) none t3

/-! ## The stream loop -/

/-- Variables of `Stream`: the held rule, the held summary, the result of the
last fetch. -/
structure LoopState where
  outf : Rule
  info : Notifications
  err : Option Err

/-- Calls made by `Stream`, in the order they are made. -/
inductive Action
  | fetch
  | sinkError (e : Option Err) (stop : Bool)
  | sinkOutput (o : Option Output)
  | wait
deriving DecidableEq, Repr

/-- Modelled from the spec: the host render sink, whose code (`bar.Sink`) is
outside the package. `sink.Error(e)` has nothing to forward for the nil
error and answers false; for an error it forwards it and answers what the
host decides (`host`, true meaning "the host is done, stop producing"). -/
def Sink.Error (host : Bool) : Option Err → Bool
  | none => false
  | some _ => host

/-- Top of the `for` loop up to `err = nil`: the actions performed and the
state at the `select`, or `none` when `Stream` returns. -/
def loopTop (host : Bool) (s : LoopState) : List Action × Option LoopState :=
  if s.err ≠ some Err.errCached then
    if Sink.Error host s.err then
      ([Action.sinkError s.err true], none)
    else
      ([Action.sinkError s.err false, Action.sinkOutput (s.outf s.info)],
        some { s with err := none })
  else
    ([], some { s with err := none })

/-- Body of `case <-m.scheduler.C` after the fetch returned `(i, e)`:
`err = e; if e != errCached { info = i }`. -/
def onTick (s : LoopState) (i : Notifications) (e : Option Err) : LoopState :=
  { s with err := e, info := if e ≠ some Err.errCached then i else s.info }

/-- Where the goroutine running `Stream` is: blocked in the `select`,
returned, ended with the process by `log.Fatal`, or stopped by the panic of
the type assertion on an unset `outputFunc`. -/
inductive Status
  | waiting
  | returned
  | fatal
  | panicked
deriving DecidableEq, Repr

/-- A run of `Stream`: the module, whether a change of `outputFunc` is pending
on the subscription, the loop variables, the status and the calls made so
far. -/
structure Run where
  m : Module
  notified : Bool
  st : LoopState
  status : Status
  trace : List Action

/-- What can happen while `Stream` runs: another goroutine calls `m.Output(f)`,
the `select` takes the rule-change case, or it takes the scheduler case (the
fetch then meets `env`, and `host` is the answer of the host if the error of
that fetch is forwarded to the sink). -/
inductive Input
  | set (f : Rule)
  | ruleChanged
  | tick (env : FetchEnv) (host : Bool)

/-- One pass from the top of the loop to the `select` (or to the return). -/
def enterLoop (r : Run) (host : Bool) : Run :=
  match (loopTop host r.st).2 with
  | none => { r with status := Status.returned, trace := r.trace ++ (loopTop host r.st).1 }
  | some s =>
    { r with st := s, status := Status.waiting,
             trace := r.trace ++ (loopTop host r.st).1 ++ [Action.wait] }

/-- Stream up to its first `select`: read the rule, subscribe, fetch once,
run the top of the loop. -/
def Stream.init (m : Module) (env : FetchEnv) (host : Bool) : Run :=
  match m.outputFunc with
  | none =>
    { m := m, notified := false, st := ⟨fun _ => none, [], none⟩,
      status := Status.panicked, trace := [] }
  | some outf =>
    match getNotifications m env with
    | FetchResult.fatal _ =>
      { m := m, notified := false, st := ⟨outf, [], none⟩,
        status := Status.fatal, trace := [Action.fetch] }
    | FetchResult.ret m1 info err _ =>
      enterLoop { m := m1, notified := false, st := ⟨outf, info, err⟩,
                  status := Status.waiting, trace := [Action.fetch] } host

/-- One event in the `select` and the pass of the loop that follows it. -/
def Stream.step (r : Run) : Input → Run
  | Input.set f => { r with m := Module.Output r.m f, notified := true }
  | Input.ruleChanged =>
    if r.status = Status.waiting ∧ r.notified = true then
      match r.m.outputFunc with
      | none => { r with status := Status.panicked }
      | some f => enterLoop { r with notified := false, st := { r.st with outf := f } } false
    else r
  | Input.tick env host =>
    if r.status = Status.waiting then
      match getNotifications r.m env with
      | FetchResult.fatal _ =>
        { r with status := Status.fatal, trace := r.trace ++ [Action.fetch] }
      | FetchResult.ret m1 i e _ =>
        enterLoop { r with m := m1, st := onTick r.st i e,
                           trace := r.trace ++ [Action.fetch] } host
    else r

/-- Stream starts the module; `inputs` are the events met after the first
fetch. -/
def Stream (m : Module) (env : FetchEnv) (host : Bool) (inputs : List Input) : Run :=
  List.foldl Stream.step (Stream.init m env host) inputs

/-- The scheduler case taken with the fetch meeting `p.1` and the host
answering `p.2`. -/
def tickOf (p : FetchEnv × Bool) : Input :=
  Input.tick p.1 p.2

/-- Reply of the end-to-end scenario: two records of "mail", one of "chat". -/
def threeRecords : List RoficationNotification :=
  [⟨1, "x", "", "mail", 1, []⟩, ⟨2, "y", "", "mail", 1, []⟩, ⟨3, "z", "", "chat", 1, []⟩]

/-- A fetch that connects, writes and decodes `l`, the reply taking
`readTime` nanoseconds to arrive. -/
def replyEnv (readTime : Int) (l : List RoficationNotification) : FetchEnv :=
  { now := 0, dialOk := true, dialTime := 0, writeOk := true, writeTime := 0,
    readTime := readTime, reply := Except.ok l }

/-- A fetch that connects and writes, and whose reply fails to decode. -/
def garbledEnv : FetchEnv :=
  { now := 0, dialOk := true, dialTime := 0, writeOk := true, writeTime := 0,
    readTime := 0, reply := Except.error "invalid character" }

/-! ## Integer arithmetic -/

theorem wrapInt_add_left (a b : Int) : wrapInt (wrapInt a + b) = wrapInt (a + b) := by
  unfold wrapInt
  omega

theorem wrapInt_of_fits (x : Int) (h1 : -9223372036854775808 ≤ x)
    (h2 : x < 9223372036854775808) : wrapInt x = x := by
  unfold wrapInt
  omega

theorem wrapInt_fits (x : Int) :
    -9223372036854775808 ≤ wrapInt x ∧ wrapInt x < 9223372036854775808 := by
  unfold wrapInt
  omega

theorem wrapInt_idem (x : Int) : wrapInt (wrapInt x) = wrapInt x := by
  unfold wrapInt
  omega

/-! ## Total -/

theorem foldl_total_wrap (n : Notifications) (acc : Int) :
    wrapInt (List.foldl (fun t e => wrapInt (t + e.2)) acc n)
      = wrapInt (acc + (n.map Prod.snd).sum) := by
  induction n generalizing acc with
  | nil => simp
  | cons e rest ih =>
    simp only [List.foldl_cons, List.map_cons, List.sum_cons]
    rw [ih, wrapInt_add_left]
    congr 1
    ring

theorem foldl_total_fixed (n : Notifications) (acc : Int) (h : wrapInt acc = acc) :
    wrapInt (List.foldl (fun t e => wrapInt (t + e.2)) acc n)
      = List.foldl (fun t e => wrapInt (t + e.2)) acc n := by
  induction n generalizing acc with
  | nil => simpa using h
  | cons e rest ih =>
    simp only [List.foldl_cons]
    exact ih _ (wrapInt_idem _)

theorem Total_eq_wrap_sum (n : Notifications) :
    Notifications.Total n = wrapInt ((n.map Prod.snd).sum) := by
  unfold Notifications.Total
  rw [← foldl_total_fixed n 0 (by decide), foldl_total_wrap]
  simp

/-! ## Map reads and writes -/

theorem get_cons (k' : String) (v' : Int) (rest : Notifications) (k : String) :
    Notifications.get ((k', v') :: rest) k
      = if k = k' then v' else Notifications.get rest k := by
  unfold Notifications.get
  by_cases h : k = k'
  · simp [List.lookup_cons, h]
  · have hb : (k == k') = false := by simpa using h
    simp [List.lookup_cons, h, hb]

theorem get_set (n : Notifications) (k : String) (v : Int) (a : String) :
    Notifications.get (Notifications.set n k v) a
      = if a = k then v else Notifications.get n a := by
  induction n with
  | nil =>
    simp only [Notifications.set, get_cons]
  | cons e rest ih =>
    obtain ⟨k', v'⟩ := e
    simp only [Notifications.set]
    by_cases hk : k' = k
    · subst hk
      simp only [if_true, get_cons]
      by_cases ha : a = k' <;> simp [ha]
    · simp only [hk, if_false, get_cons, ih]
      by_cases ha : a = k'
      · have : a ≠ k := fun h => hk (by rw [← ha, h])
        simp [ha, this, hk]
      · simp [ha]

theorem keys_set (n : Notifications) (k : String) (v : Int) :
    (Notifications.set n k v).map Prod.fst
      = if k ∈ n.map Prod.fst then n.map Prod.fst else n.map Prod.fst ++ [k] := by
  induction n with
  | nil => simp [Notifications.set]
  | cons e rest ih =>
    obtain ⟨k', v'⟩ := e
    simp only [Notifications.set]
    by_cases hk : k' = k
    · subst hk
      simp
    · have hk' : ¬ k = k' := fun h => hk h.symm
      simp only [hk, if_false, List.map_cons, ih, List.mem_cons, hk', false_or]
      by_cases hm : k ∈ rest.map Prod.fst
      · simp only [hm, if_true]
      · simp only [hm, if_false, List.cons_append]

theorem sum_set (n : Notifications) (k : String) (v : Int) :
    ((Notifications.set n k v).map Prod.snd).sum
      = (n.map Prod.snd).sum - Notifications.get n k + v := by
  induction n with
  | nil => simp [Notifications.set, Notifications.get]
  | cons e rest ih =>
    obtain ⟨k', v'⟩ := e
    simp only [Notifications.set]
    by_cases hk : k' = k
    · subst hk
      simp only [if_true, List.map_cons, List.sum_cons, get_cons]
      ring
    · have hk' : ¬ k = k' := fun h => hk h.symm
      simp only [hk, if_false, List.map_cons, List.sum_cons, get_cons, ih, hk']
      ring

theorem get_of_mem (n : Notifications) (a : String) (c : Int)
    (hnd : (n.map Prod.fst).Nodup) (h : (a, c) ∈ n) : Notifications.get n a = c := by
  induction n with
  | nil => simp at h
  | cons e rest ih =>
    obtain ⟨k', v'⟩ := e
    rw [List.map_cons, List.nodup_cons] at hnd
    rw [get_cons]
    rcases List.mem_cons.mp h with h | h
    · injection h with h1 h2
      simp [h1, h2]
    · have hne : a ≠ k' := by
        intro heq
        apply hnd.1
        rw [← heq]
        exact List.mem_map.mpr ⟨(a, c), h, rfl⟩
      simp only [hne, if_false]
      exact ih hnd.2 h

theorem mem_of_key (n : Notifications) (a : String) (h : a ∈ n.map Prod.fst) :
    (a, Notifications.get n a) ∈ n := by
  induction n with
  | nil => simp at h
  | cons e rest ih =>
    obtain ⟨k', v'⟩ := e
    rw [get_cons]
    by_cases ha : a = k'
    · simp [ha]
    · simp only [ha, if_false]
      rw [List.map_cons, List.mem_cons] at h
      rcases h with h | h
      · exact absurd h ha
      · exact List.mem_cons_of_mem _ (ih h)

theorem nodup_of_nodup_keys (n : Notifications) (h : (n.map Prod.fst).Nodup) : n.Nodup :=
  List.Nodup.of_map Prod.fst h

/-! ## The counting loop -/

theorem counted_nil : Counted [] [] := by
  refine ⟨by simp, ?_, by simp, by simp⟩
  intro a
  simp [Notifications.get]

theorem counted_step (acc : Notifications) (seen : List String) (k : String)
    (h : Counted acc seen) (hlen : (seen.length : Int) + 1 < 9223372036854775808) :
    Counted (Notifications.set acc k (wrapInt (Notifications.get acc k + 1)))
      (seen ++ [k]) := by
  obtain ⟨hnd, hget, hkey, hsum⟩ := h
  have hcount : (seen.count k : Int) ≤ (seen.length : Int) := by
    exact_mod_cast List.count_le_length k seen
  have hv : wrapInt (Notifications.get acc k + 1) = (seen.count k : Int) + 1 := by
    rw [hget k]
    apply wrapInt_of_fits <;> omega
  rw [hv]
  refine ⟨?_, ?_, ?_, ?_⟩
  · rw [keys_set]
    by_cases hm : k ∈ acc.map Prod.fst
    · simpa only [hm, if_true] using hnd
    · simp only [hm, if_false]
      rw [List.nodup_append]
      refine ⟨hnd, List.nodup_singleton k, ?_⟩
      intro x hx hx'
      rw [List.mem_singleton] at hx'
      exact hm (hx' ▸ hx)
  · intro a
    rw [get_set, List.count_append, hget a]
    by_cases ha : a = k
    · subst ha
      simp
    · have hka : ¬ k = a := fun h => ha h.symm
      simp [ha, hka, List.count_cons]
  · intro a
    rw [keys_set]
    by_cases hm : k ∈ acc.map Prod.fst
    · simp only [hm, if_true, List.mem_append, List.mem_singleton]
      constructor
      · intro h
        exact Or.inl ((hkey a).mp h)
      · rintro (h | h)
        · exact (hkey a).mpr h
        · exact h ▸ hm
    · simp only [hm, if_false, List.mem_append, List.mem_singleton, hkey a]
  · rw [sum_set, hsum, hget k]
    simp only [List.length_append, List.length_singleton]
    push_cast
    ring

theorem counted_foldl (l : List RoficationNotification) (acc : Notifications)
    (seen : List String) (h : Counted acc seen)
    (hlen : (seen.length : Int) + (l.length : Int) < 9223372036854775808) :
    Counted
      (List.foldl
        (fun info n => Notifications.set info n.Application
          (wrapInt (Notifications.get info n.Application + 1)))
        acc l)
      (seen ++ l.map RoficationNotification.Application) := by
  induction l generalizing acc seen with
  | nil => simpa using h
  | cons r rest ih =>
    simp only [List.foldl_cons, List.map_cons]
    have h1 := counted_step acc seen r.Application h (by
      simp only [List.length_cons] at hlen
      push_cast at hlen
      omega)
    have h2 := ih _ (seen ++ [r.Application]) h1 (by
      simp only [List.length_cons, List.length_append, List.length_singleton,
        List.length_nil] at hlen ⊢
      push_cast at hlen ⊢
      omega)
    simpa using h2

theorem counted_countByApplication (l : List RoficationNotification)
    (hlen : (l.length : Int) < 9223372036854775808) :
    Counted (countByApplication l) (l.map RoficationNotification.Application) := by
  have h := counted_foldl l [] [] counted_nil (by simpa using hlen)
  simpa [countByApplication] using h

theorem mem_countByApplication (l : List RoficationNotification)
    (hlen : (l.length : Int) < 9223372036854775808) (a : String) (c : Int) :
    (a, c) ∈ countByApplication l
      ↔ a ∈ l.map RoficationNotification.Application
        ∧ c = ((l.map RoficationNotification.Application).count a : Int) := by
  obtain ⟨hnd, hget, hkey, _⟩ := counted_countByApplication l hlen
  constructor
  · intro h
    have hk : a ∈ (countByApplication l).map Prod.fst := List.mem_map.mpr ⟨(a, c), h, rfl⟩
    refine ⟨(hkey a).mp hk, ?_⟩
    rw [← hget a, get_of_mem _ a c hnd h]
  · rintro ⟨ha, hc⟩
    have := mem_of_key _ a ((hkey a).mpr ha)
    rw [hget a, ← hc] at this
    exact this

theorem Total_countByApplication (l : List RoficationNotification)
    (hlen : (l.length : Int) < 9223372036854775808) :
    Notifications.Total (countByApplication l) = (l.length : Int) := by
  obtain ⟨_, _, _, hsum⟩ := counted_countByApplication l hlen
  rw [Total_eq_wrap_sum, hsum, List.length_map]
  apply wrapInt_of_fits <;> omega

/-! ## One fetch -/

theorem getNotifications_ok (m : Module) (env : FetchEnv) (l : List RoficationNotification)
    (hd : env.dialOk = true) (hw : env.writeOk = true) (hr : env.reply = Except.ok l) :
    getNotifications m env
      = FetchResult.ret
          { m with
            scheduler :=
              some (env.now + env.dialTime + env.writeTime + wrapInt (m.interval * Second)) }
          (countByApplication l) none
          (env.now + env.dialTime + env.writeTime + env.readTime) := by
  simp [getNotifications, hd, hw, hr]

theorem getNotifications_garbled (m : Module) (env : FetchEnv) (e : String)
    (hd : env.dialOk = true) (hw : env.writeOk = true) (hr : env.reply = Except.error e) :
    getNotifications m env
      = FetchResult.ret
          { m with
            scheduler :=
              some (env.now + env.dialTime + env.writeTime + wrapInt (m.interval * Second)) }
          [] (some (Err.decode e))
          (env.now + env.dialTime + env.writeTime + env.readTime) := by
  simp [getNotifications, hd, hw, hr]

theorem getNotifications_err_ne_cached (m m1 : Module) (env : FetchEnv)
    (i : Notifications) (e : Option Err) (t : Int)
    (h : getNotifications m env = FetchResult.ret m1 i e t) : e ≠ some Err.errCached := by
  unfold getNotifications at h
  by_cases hd : env.dialOk = true
  · by_cases hw : env.writeOk = true
    · cases hr : env.reply with
      | error msg =>
        simp [hd, hw, hr] at h
        rw [← h.2.2.1]
        simp
      | ok l =>
        simp [hd, hw, hr] at h
        rw [← h.2.2.1]
        simp
    · simp [hd, hw] at h
  · simp [hd] at h

theorem New_outputFunc :
    New.outputFunc = some (fun n =>
      if Notifications.Total n = 0 then none
      else some (Textf "G5: " (Notifications.Total n))) := rfl

theorem Textf_contains (lead : String) (d : Int) :
    Output.Contains (some (Textf lead d)) (toString d) := by
  simp only [Output.Contains, Textf, String.data_append]
  exact ⟨lead.data, [], by simp⟩

/-! ## Claims on the summary and the default rule -/

/-- C1: for every Notifications value `n` and every order `order` in which
`range` may visit its entries, `Total` is the sum of the counts stored in `n`,
taken in `int` arithmetic (it is the exact sum whenever that sum is an `int`),
the same for every order of iteration, and `Total` of the empty map is 0. -/
theorem Total_is_sum_of_counts (n order : Notifications) (h : List.Perm order n) :
    Notifications.Total order = wrapInt ((n.map Prod.snd).sum)
    ∧ (-9223372036854775808 ≤ (n.map Prod.snd).sum →
        (n.map Prod.snd).sum < 9223372036854775808 →
        Notifications.Total order = (n.map Prod.snd).sum)
    ∧ Notifications.Total order = Notifications.Total n
    ∧ Notifications.Total [] = 0 := by
  have hs : (order.map Prod.snd).sum = (n.map Prod.snd).sum := (h.map Prod.snd).sum_eq
  have h1 : Notifications.Total order = wrapInt ((n.map Prod.snd).sum) := by
    rw [Total_eq_wrap_sum, hs]
  refine ⟨h1, ?_, ?_, by decide⟩
  · intro hlo hhi
    rw [h1]
    exact wrapInt_of_fits _ hlo hhi
  · rw [h1, Total_eq_wrap_sum]

theorem Total_is_sum_of_counts_witness :
    Notifications.Total [("chat", 1), ("mail", 2)]
      = (([("mail", 2), ("chat", 1)] : Notifications).map Prod.snd).sum :=
  (Total_is_sum_of_counts [("mail", 2), ("chat", 1)] [("chat", 1), ("mail", 2)]
    (by decide)).2.1 (by decide) (by decide)

/-- C2: when the reply decodes to the list `l`, `getNotifications` returns the
nil error and a summary with one entry per key in which `(a, c)` is stored
exactly when `a` occurs in `l` and `c` is the number of records of `l` whose
Application is `a`; so no key is foreign to `l`, every stored count is at
least 1, and a reordering of `l` gives the same map. -/
theorem getNotifications_counts_by_application (m : Module) (env : FetchEnv)
    (l : List RoficationNotification)
    (hlen : (l.length : Int) < 9223372036854775808)
    (hd : env.dialOk = true) (hw : env.writeOk = true) (hr : env.reply = Except.ok l) :
    ∃ m1 info t, getNotifications m env = FetchResult.ret m1 info none t
      ∧ info = countByApplication l
      ∧ (info.map Prod.fst).Nodup
      ∧ (∀ a c, (a, c) ∈ info ↔
          (∃ r ∈ l, r.Application = a)
            ∧ c = (List.countP (fun r => decide (r.Application = a)) l : Int))
      ∧ (∀ a, (∃ r ∈ l, r.Application = a) →
          Notifications.get info a
            = (List.countP (fun r => decide (r.Application = a)) l : Int))
      ∧ (∀ a, a ∈ info.map Prod.fst → ∃ r ∈ l, r.Application = a)
      ∧ (∀ e ∈ info, 1 ≤ e.2)
      ∧ (∀ l2, List.Perm l2 l → List.Perm (countByApplication l2) info) := by
  have hcnt : ∀ (l0 : List RoficationNotification) (a : String),
      ((l0.map RoficationNotification.Application).count a : Int)
        = (List.countP (fun r => decide (r.Application = a)) l0 : Int) := by
    intro l0 a
    congr 1
    rw [List.count, List.countP_map]
    congr 1
  have hmem : ∀ (l0 : List RoficationNotification) (a : String),
      a ∈ l0.map RoficationNotification.Application ↔ ∃ r ∈ l0, r.Application = a := by
    intro l0 a
    simp [List.mem_map]
  obtain ⟨hnd, hget, hkey, _⟩ := counted_countByApplication l hlen
  have hent : ∀ a c, (a, c) ∈ countByApplication l ↔
      (∃ r ∈ l, r.Application = a)
        ∧ c = (List.countP (fun r => decide (r.Application = a)) l : Int) := by
    intro a c
    rw [mem_countByApplication l hlen, hmem, hcnt]
  refine ⟨_, _, _, getNotifications_ok m env l hd hw hr, rfl, hnd, hent, ?_, ?_, ?_, ?_⟩
  · intro a _
    rw [hget a, hcnt]
  · intro a ha
    exact (hmem l a).mp ((hkey a).mp ha)
  · rintro ⟨a, c⟩ he
    obtain ⟨⟨r, hr1, hr2⟩, hc⟩ := (hent a c).mp he
    have hpos : 0 < List.countP (fun r => decide (r.Application = a)) l :=
      List.countP_pos_iff.mpr ⟨r, hr1, by simpa using hr2⟩
    simp only [hc]
    exact_mod_cast hpos
  · intro l2 hp
    have hlen2 : (l2.length : Int) < 9223372036854775808 := by
      rw [hp.length_eq]
      exact hlen
    obtain ⟨hnd2, _, _, _⟩ := counted_countByApplication l2 hlen2
    rw [List.perm_ext_iff_of_nodup (nodup_of_nodup_keys _ hnd2) (nodup_of_nodup_keys _ hnd)]
    rintro ⟨a, c⟩
    rw [mem_countByApplication l2 hlen2, mem_countByApplication l hlen]
    have hp2 := hp.map RoficationNotification.Application
    rw [hp2.mem_iff, hp2.count_eq]

theorem getNotifications_counts_by_application_witness :
    ∃ m1 t, getNotifications New (replyEnv 0 threeRecords)
      = FetchResult.ret m1 [("mail", 2), ("chat", 1)] none t := by
  obtain ⟨m1, info, t, h1, h2, _⟩ :=
    getNotifications_counts_by_application New (replyEnv 0 threeRecords) threeRecords
      (by decide) rfl rfl rfl
  refine ⟨m1, t, ?_⟩
  rw [h1, h2]
  rfl

/-- C3: the rule installed by `New` gives no output exactly when `Total` is 0,
and otherwise the text `"G5: "` followed by the decimal rendering of `Total`,
a text that contains that rendering. -/
theorem New_default_rule (r : Rule) (hr : New.outputFunc = some r) (n : Notifications) :
    (r n = none ↔ Notifications.Total n = 0)
    ∧ (Notifications.Total n ≠ 0 →
        r n = some (Output.text ("G5: " ++ toString (Notifications.Total n)))
        ∧ Output.Contains (r n) (toString (Notifications.Total n))) := by
  rw [New_outputFunc] at hr
  injection hr with hr
  subst hr
  by_cases h0 : Notifications.Total n = 0
  · simp [h0]
  · simp only [h0, if_false]
    refine ⟨by simp, fun _ => ⟨rfl, Textf_contains _ _⟩⟩

theorem New_default_rule_witness :
    ∃ r, New.outputFunc = some r
      ∧ Notifications.Total [("mail", 2), ("chat", 1)] = 3
      ∧ r [("mail", 2), ("chat", 1)] = some (Output.text "G5: 3")
      ∧ Output.Contains (r [("mail", 2), ("chat", 1)]) "3" :=
  ⟨_, New_outputFunc, by decide,
    ((New_default_rule _ New_outputFunc [("mail", 2), ("chat", 1)]).2 (by decide)).1,
    ((New_default_rule _ New_outputFunc [("mail", 2), ("chat", 1)]).2 (by decide)).2⟩

/-- C4: end to end, when the reply decodes to `l` the summary returned by
`getNotifications` has `Total` equal to the length of `l`; the default rule
applied to it gives no output exactly when `l` is empty, and for a non-empty
`l` a text containing the decimal rendering of the length of `l`. -/
theorem fetch_Total_is_length (m : Module) (env : FetchEnv)
    (l : List RoficationNotification) (r : Rule)
    (hlen : (l.length : Int) < 9223372036854775808)
    (hd : env.dialOk = true) (hw : env.writeOk = true) (hr : env.reply = Except.ok l)
    (hnew : New.outputFunc = some r) :
    ∃ m1 info t, getNotifications m env = FetchResult.ret m1 info none t
      ∧ Notifications.Total info = (l.length : Int)
      ∧ (r info = none ↔ l = [])
      ∧ (l ≠ [] →
          r info = some (Output.text ("G5: " ++ toString (l.length : Int)))
          ∧ Output.Contains (r info) (toString (l.length : Int))) := by
  have hT := Total_countByApplication l hlen
  rw [New_outputFunc] at hnew
  injection hnew with hnew
  subst hnew
  refine ⟨_, _, _, getNotifications_ok m env l hd hw hr, hT, ?_, ?_⟩
  · simp only [hT]
    constructor
    · intro h
      by_cases h0 : (l.length : Int) = 0
      · exact List.length_eq_zero.mp (by exact_mod_cast h0)
      · simp [h0] at h
    · intro h
      simp [h]
  · intro hne
    have h0 : ¬ (l.length : Int) = 0 := by
      intro h
      exact hne (List.length_eq_zero.mp (by exact_mod_cast h))
    simp only [hT, h0, if_false]
    exact ⟨rfl, Textf_contains _ _⟩

theorem fetch_Total_is_length_witness :
    (∃ r m1 info t, New.outputFunc = some r
      ∧ getNotifications New (replyEnv 0 threeRecords) = FetchResult.ret m1 info none t
      ∧ Notifications.Total info = 3
      ∧ r info = some (Output.text "G5: 3")
      ∧ Output.Contains (r info) "3")
    ∧ (∃ r m1 info t, New.outputFunc = some r
      ∧ getNotifications New (replyEnv 0 []) = FetchResult.ret m1 info none t
      ∧ Notifications.Total info = 0
      ∧ r info = none) := by
  constructor
  · obtain ⟨m1, info, t, h1, h2, _, h4⟩ :=
      fetch_Total_is_length New (replyEnv 0 threeRecords) threeRecords _
        (by decide) rfl rfl rfl New_outputFunc
    exact ⟨_, m1, info, t, New_outputFunc, h1, h2, (h4 (by decide)).1, (h4 (by decide)).2⟩
  · obtain ⟨m1, info, t, h1, h2, h3, _⟩ :=
      fetch_Total_is_length New (replyEnv 0 []) [] _
        (by decide) rfl rfl rfl New_outputFunc
    exact ⟨_, m1, info, t, New_outputFunc, h1, h2, h3.mpr rfl⟩

/-! ## The stream loop -/

theorem loopTop_cached (host : Bool) (s : LoopState) (h : s.err = some Err.errCached) :
    loopTop host s = ([], some { s with err := none }) := by
  simp [loopTop, h]

theorem loopTop_stop (host : Bool) (s : LoopState) (h : s.err ≠ some Err.errCached)
    (hstop : Sink.Error host s.err = true) :
    loopTop host s = ([Action.sinkError s.err true], none) := by
  simp [loopTop, h, hstop]

theorem loopTop_push (host : Bool) (s : LoopState) (h : s.err ≠ some Err.errCached)
    (hgo : Sink.Error host s.err = false) :
    loopTop host s
      = ([Action.sinkError s.err false, Action.sinkOutput (s.outf s.info)],
          some { s with err := none }) := by
  simp [loopTop, h, hgo]

theorem enterLoop_cached (r : Run) (host : Bool) (h : r.st.err = some Err.errCached) :
    enterLoop r host
      = { r with st := { r.st with err := none }, status := Status.waiting,
                 trace := r.trace ++ [Action.wait] } := by
  simp [enterLoop, loopTop_cached host r.st h]

theorem enterLoop_stop (r : Run) (host : Bool) (h : r.st.err ≠ some Err.errCached)
    (hstop : Sink.Error host r.st.err = true) :
    enterLoop r host
      = { r with status := Status.returned,
                 trace := r.trace ++ [Action.sinkError r.st.err true] } := by
  simp [enterLoop, loopTop_stop host r.st h hstop]

theorem enterLoop_push (r : Run) (host : Bool) (h : r.st.err ≠ some Err.errCached)
    (hgo : Sink.Error host r.st.err = false) :
    enterLoop r host
      = { r with st := { r.st with err := none }, status := Status.waiting,
                 trace := r.trace
                   ++ [Action.sinkError r.st.err false, Action.sinkOutput (r.st.outf r.st.info),
                       Action.wait] } := by
  simp [enterLoop, loopTop_push host r.st h hgo]

theorem enterLoop_m (r : Run) (host : Bool) :
    (enterLoop r host).m = r.m ∧ (enterLoop r host).notified = r.notified := by
  unfold enterLoop
  split <;> simp

theorem enterLoop_st (r : Run) (host : Bool) :
    (enterLoop r host).st.outf = r.st.outf ∧ (enterLoop r host).st.info = r.st.info := by
  by_cases h : r.st.err = some Err.errCached
  · rw [enterLoop_cached r host h]
    simp
  · cases hs : Sink.Error host r.st.err with
    | true =>
      rw [enterLoop_stop r host h hs]
      simp
    | false =>
      rw [enterLoop_push r host h hs]
      simp

theorem enterLoop_waiting_err (r : Run) (host : Bool)
    (h : (enterLoop r host).status = Status.waiting) : (enterLoop r host).st.err = none := by
  by_cases hc : r.st.err = some Err.errCached
  · rw [enterLoop_cached r host hc]
  · cases hs : Sink.Error host r.st.err with
    | true =>
      rw [enterLoop_stop r host hc hs] at h
      simp at h
    | false =>
      rw [enterLoop_push r host hc hs]

theorem getNotifications_keeps_rule (m m1 : Module) (env : FetchEnv)
    (i : Notifications) (e : Option Err) (t : Int)
    (h : getNotifications m env = FetchResult.ret m1 i e t) :
    m1.outputFunc = m.outputFunc := by
  unfold getNotifications at h
  by_cases hd : env.dialOk = true
  · by_cases hw : env.writeOk = true
    · cases hr : env.reply with
      | error msg =>
        simp [hd, hw, hr] at h
        rw [← h.1]
      | ok l =>
        simp [hd, hw, hr] at h
        rw [← h.1]
    · simp [hd, hw] at h
  · simp [hd] at h

theorem step_set (r : Run) (f : Rule) :
    Stream.step r (Input.set f) = { r with m := Module.Output r.m f, notified := true } := rfl

theorem step_ruleChanged (r : Run) (f : Rule) (hs : r.status = Status.waiting)
    (hn : r.notified = true) (hf : r.m.outputFunc = some f) :
    Stream.step r Input.ruleChanged
      = enterLoop { r with notified := false, st := { r.st with outf := f } } false := by
  simp [Stream.step, hs, hn, hf]

theorem step_tick_ret (r : Run) (env : FetchEnv) (host : Bool) (m1 : Module)
    (i : Notifications) (e : Option Err) (t : Int) (hs : r.status = Status.waiting)
    (h : getNotifications r.m env = FetchResult.ret m1 i e t) :
    Stream.step r (Input.tick env host)
      = enterLoop { r with m := m1, st := onTick r.st i e,
                           trace := r.trace ++ [Action.fetch] } host := by
  simp [Stream.step, hs, h]

theorem step_tick_fatal (r : Run) (env : FetchEnv) (host : Bool) (msg : String)
    (hs : r.status = Status.waiting)
    (h : getNotifications r.m env = FetchResult.fatal msg) :
    Stream.step r (Input.tick env host)
      = { r with status := Status.fatal, trace := r.trace ++ [Action.fetch] } := by
  simp [Stream.step, hs, h]

theorem step_not_waiting (r : Run) (i : Input) (hs : r.status ≠ Status.waiting) :
    (Stream.step r i).status = r.status ∧ (Stream.step r i).trace = r.trace
      ∧ (Stream.step r i).st = r.st := by
  cases i with
  | set f => simp [Stream.step]
  | ruleChanged => simp [Stream.step, hs]
  | tick env host => simp [Stream.step, hs]

theorem step_waiting_err (r : Run) (i : Input)
    (h : r.status = Status.waiting → r.st.err = none) :
    (Stream.step r i).status = Status.waiting → (Stream.step r i).st.err = none := by
  by_cases hs : r.status = Status.waiting
  · cases i with
    | set f =>
      intro _
      exact h hs
    | ruleChanged =>
      by_cases hn : r.notified = true
      · cases hf : r.m.outputFunc with
        | none => simp [Stream.step, hs, hn, hf]
        | some f =>
          rw [step_ruleChanged r f hs hn hf]
          exact enterLoop_waiting_err _ _
      · intro _
        simp only [Stream.step, hs, hn]
        simpa using h hs
    | tick env host =>
      cases hg : getNotifications r.m env with
      | fatal msg =>
        rw [step_tick_fatal r env host msg hs hg]
        simp
      | ret m1 i e t =>
        rw [step_tick_ret r env host m1 i e t hs hg]
        exact enterLoop_waiting_err _ _
  · intro hw
    exact absurd ((step_not_waiting r i hs).1 ▸ hw) hs

theorem init_waiting_err (m : Module) (env : FetchEnv) (host : Bool) :
    (Stream.init m env host).status = Status.waiting → (Stream.init m env host).st.err = none := by
  unfold Stream.init
  cases hf : m.outputFunc with
  | none => simp
  | some f =>
    cases hg : getNotifications m env with
    | fatal msg => simp
    | ret m1 i e t => exact enterLoop_waiting_err _ _

theorem foldl_waiting_err (inputs : List Input) (r : Run)
    (h : r.status = Status.waiting → r.st.err = none) :
    (List.foldl Stream.step r inputs).status = Status.waiting →
      (List.foldl Stream.step r inputs).st.err = none := by
  induction inputs generalizing r with
  | nil => simpa using h
  | cons i rest ih =>
    simp only [List.foldl_cons]
    exact ih _ (step_waiting_err r i h)

theorem Stream_waiting_err (m : Module) (env : FetchEnv) (host : Bool) (inputs : List Input) :
    (Stream m env host inputs).status = Status.waiting →
      (Stream m env host inputs).st.err = none :=
  foldl_waiting_err inputs _ (init_waiting_err m env host)

/-! ## How the stream ends -/

theorem enterLoop_returned_iff (r : Run) (host : Bool)
    (h : ¬ ∃ e, Action.sinkError e true ∈ r.trace) :
    ((enterLoop r host).status = Status.returned
        ↔ ∃ e, Action.sinkError e true ∈ (enterLoop r host).trace)
    ∧ ((enterLoop r host).status = Status.returned →
        ∃ e pre, (enterLoop r host).trace = pre ++ [Action.sinkError e true]) := by
  have h' : ∀ e, Action.sinkError e true ∉ r.trace := fun e he => h ⟨e, he⟩
  by_cases hc : r.st.err = some Err.errCached
  · rw [enterLoop_cached r host hc]
    simp [h']
  · cases hs : Sink.Error host r.st.err with
    | true =>
      rw [enterLoop_stop r host hc hs]
      simp only [true_iff, List.mem_append, List.mem_singleton, true_implies]
      exact ⟨⟨r.st.err, Or.inr rfl⟩, ⟨r.st.err, r.trace, rfl⟩⟩
    | false =>
      rw [enterLoop_push r host hc hs]
      simp [h']

theorem step_returned_iff (r : Run) (i : Input)
    (h : (r.status = Status.returned ↔ ∃ e, Action.sinkError e true ∈ r.trace)
      ∧ (r.status = Status.returned → ∃ e pre, r.trace = pre ++ [Action.sinkError e true])) :
    ((Stream.step r i).status = Status.returned
        ↔ ∃ e, Action.sinkError e true ∈ (Stream.step r i).trace)
    ∧ ((Stream.step r i).status = Status.returned →
        ∃ e pre, (Stream.step r i).trace = pre ++ [Action.sinkError e true]) := by
  by_cases hs : r.status = Status.waiting
  · have hno : ¬ ∃ e, Action.sinkError e true ∈ r.trace := by
      intro hex
      have := h.1.mpr hex
      rw [hs] at this
      exact absurd this (by decide)
    cases i with
    | set f =>
      rw [step_set]
      exact h
    | ruleChanged =>
      by_cases hn : r.notified = true
      · cases hf : r.m.outputFunc with
        | none =>
          have : Stream.step r Input.ruleChanged = { r with status := Status.panicked } := by
            simp [Stream.step, hs, hn, hf]
          rw [this]
          simpa using fun e he => hno ⟨e, he⟩
        | some f =>
          rw [step_ruleChanged r f hs hn hf]
          exact enterLoop_returned_iff _ _ hno
      · have : Stream.step r Input.ruleChanged = r := by
          simp [Stream.step, hs, hn]
        rw [this]
        exact h
    | tick env host =>
      cases hg : getNotifications r.m env with
      | fatal msg =>
        rw [step_tick_fatal r env host msg hs hg]
        simpa using fun e he => hno ⟨e, he⟩
      | ret m1 i e t =>
        rw [step_tick_ret r env host m1 i e t hs hg]
        apply enterLoop_returned_iff
        simpa using fun e he => hno ⟨e, he⟩
  · obtain ⟨h1, h2, _⟩ := step_not_waiting r i hs
    rw [h1, h2]
    exact h

theorem init_returned_iff (m : Module) (env : FetchEnv) (host : Bool) :
    ((Stream.init m env host).status = Status.returned
        ↔ ∃ e, Action.sinkError e true ∈ (Stream.init m env host).trace)
    ∧ ((Stream.init m env host).status = Status.returned →
        ∃ e pre, (Stream.init m env host).trace = pre ++ [Action.sinkError e true]) := by
  unfold Stream.init
  cases hf : m.outputFunc with
  | none => simp
  | some f =>
    cases hg : getNotifications m env with
    | fatal msg => simp
    | ret m1 i e t =>
      apply enterLoop_returned_iff
      simp

theorem foldl_returned_iff (inputs : List Input) (r : Run)
    (h : (r.status = Status.returned ↔ ∃ e, Action.sinkError e true ∈ r.trace)
      ∧ (r.status = Status.returned → ∃ e pre, r.trace = pre ++ [Action.sinkError e true])) :
    ((List.foldl Stream.step r inputs).status = Status.returned
        ↔ ∃ e, Action.sinkError e true ∈ (List.foldl Stream.step r inputs).trace)
    ∧ ((List.foldl Stream.step r inputs).status = Status.returned →
        ∃ e pre, (List.foldl Stream.step r inputs).trace = pre ++ [Action.sinkError e true]) := by
  induction inputs generalizing r with
  | nil => simpa using h
  | cons i rest ih =>
    simp only [List.foldl_cons]
    exact ih _ (step_returned_iff r i h)

theorem init_pass (m : Module) (env : FetchEnv) (host : Bool) (f : Rule) (m0 : Module)
    (i0 : Notifications) (e0 : Option Err) (t0 : Int) (hf : m.outputFunc = some f)
    (h0 : getNotifications m env = FetchResult.ret m0 i0 e0 t0) :
    (Stream.init m env host).trace
        = Action.fetch :: Action.sinkError e0 (Sink.Error host e0)
            :: (if Sink.Error host e0 = true then []
                else [Action.sinkOutput (f i0), Action.wait])
    ∧ (Stream.init m env host).status
        = (if Sink.Error host e0 = true then Status.returned else Status.waiting) := by
  have hne := getNotifications_err_ne_cached m m0 env i0 e0 t0 h0
  unfold Stream.init
  simp only [hf, h0]
  cases hans : Sink.Error host e0 with
  | true =>
    rw [enterLoop_stop _ host (by simpa using hne) (by simpa using hans)]
    simp
  | false =>
    rw [enterLoop_push _ host (by simpa using hne) (by simpa using hans)]
    simp

theorem tick_pass (r : Run) (env : FetchEnv) (host : Bool) (m1 : Module)
    (i : Notifications) (e : Option Err) (t : Int) (hs : r.status = Status.waiting)
    (hg : getNotifications r.m env = FetchResult.ret m1 i e t) :
    (Stream.step r (Input.tick env host)).trace
        = r.trace ++ Action.fetch :: Action.sinkError e (Sink.Error host e)
            :: (if Sink.Error host e = true then []
                else [Action.sinkOutput (r.st.outf i), Action.wait])
    ∧ (Stream.step r (Input.tick env host)).status
        = (if Sink.Error host e = true then Status.returned else Status.waiting) := by
  have hne := getNotifications_err_ne_cached r.m m1 env i e t hg
  rw [step_tick_ret r env host m1 i e t hs hg]
  cases hans : Sink.Error host e with
  | true =>
    rw [enterLoop_stop _ host (by simpa [onTick] using hne) (by simpa [onTick] using hans)]
    simp [onTick]
  | false =>
    rw [enterLoop_push _ host (by simpa [onTick] using hne) (by simpa [onTick] using hans)]
    simp [onTick, hne]

theorem ruleChanged_pass (r : Run) (g : Rule) (hs : r.status = Status.waiting)
    (herr : r.st.err = none) (hn : r.notified = true) (hg : r.m.outputFunc = some g) :
    (Stream.step r Input.ruleChanged).trace
        = r.trace ++ [Action.sinkError none false, Action.sinkOutput (g r.st.info),
            Action.wait]
    ∧ (Stream.step r Input.ruleChanged).status = Status.waiting := by
  rw [step_ruleChanged r g hs hn hg]
  rw [enterLoop_push _ false (by simp [herr]) (by simp [herr, Sink.Error])]
  simp [herr]

/-- C8: every pass of `Stream` that follows a fetch (the first one, or one
made on a tick; its result is never the unchanged marker) calls
`sink.Error` with the result of that fetch right after the fetch and before
any output; if the call answers true, `Stream` returns there and the pass
pushes no output; if it answers false, the pass pushes the held rule applied
to the held summary and then waits. The pass that follows a rule change calls
`sink.Error(nil)`, answered false, and pushes. The same holds of the top of
the loop on any state whose `err` is not the marker. A run of `Stream` has
returned exactly when some `sink.Error` call answered true, and that call is
then the last call made. -/
theorem Stream_returns_iff_sink_stops (m : Module) (env : FetchEnv) (host : Bool)
    (inputs : List Input) (f : Rule) (m0 : Module) (i0 : Notifications)
    (e0 : Option Err) (t0 : Int) (env1 : FetchEnv) (host1 : Bool) (m1 : Module)
    (i1 : Notifications) (e1 : Option Err) (t1 : Int) (answer : Bool) (s : LoopState)
    (hf : m.outputFunc = some f)
    (h0 : getNotifications m env = FetchResult.ret m0 i0 e0 t0)
    (hw : (Stream m env host inputs).status = Status.waiting)
    (h1 : getNotifications (Stream m env host inputs).m env1 = FetchResult.ret m1 i1 e1 t1)
    (hs : s.err ≠ some Err.errCached) :
    (e0 ≠ some Err.errCached ∧ e1 ≠ some Err.errCached)
    ∧ (Stream m env host []).trace
        = Action.fetch :: Action.sinkError e0 (Sink.Error host e0)
            :: (if Sink.Error host e0 = true then []
                else [Action.sinkOutput (f i0), Action.wait])
    ∧ (Stream m env host []).status
        = (if Sink.Error host e0 = true then Status.returned else Status.waiting)
    ∧ (Stream m env host (inputs ++ [Input.tick env1 host1])).trace
        = (Stream m env host inputs).trace
          ++ Action.fetch :: Action.sinkError e1 (Sink.Error host1 e1)
            :: (if Sink.Error host1 e1 = true then []
                else [Action.sinkOutput ((Stream m env host inputs).st.outf i1),
                      Action.wait])
    ∧ (Stream m env host (inputs ++ [Input.tick env1 host1])).status
        = (if Sink.Error host1 e1 = true then Status.returned else Status.waiting)
    ∧ (∀ g, (Stream m env host inputs).notified = true →
        (Stream m env host inputs).m.outputFunc = some g →
        (Stream m env host (inputs ++ [Input.ruleChanged])).trace
            = (Stream m env host inputs).trace
              ++ [Action.sinkError none false,
                  Action.sinkOutput (g (Stream m env host inputs).st.info), Action.wait]
        ∧ (Stream m env host (inputs ++ [Input.ruleChanged])).status = Status.waiting)
    ∧ (∃ rest, (loopTop answer s).1
        = Action.sinkError s.err (Sink.Error answer s.err) :: rest
      ∧ ∀ a ∈ rest, a = Action.sinkOutput (s.outf s.info))
    ∧ (Sink.Error answer s.err = true →
        loopTop answer s = ([Action.sinkError s.err true], none))
    ∧ (Sink.Error answer s.err = false →
        loopTop answer s
          = ([Action.sinkError s.err false, Action.sinkOutput (s.outf s.info)],
              some { s with err := none }))
    ∧ ((Stream m env host inputs).status = Status.returned
        ↔ ∃ e, Action.sinkError e true ∈ (Stream m env host inputs).trace)
    ∧ ((Stream m env host inputs).status = Status.returned →
        ∃ e pre, (Stream m env host inputs).trace = pre ++ [Action.sinkError e true])
    ∧ ((Stream m env host (inputs ++ [Input.tick env1 host1])).status = Status.returned
        ↔ ∃ e, Action.sinkError e true
            ∈ (Stream m env host (inputs ++ [Input.tick env1 host1])).trace) := by
  have hrun := foldl_returned_iff inputs _ (init_returned_iff m env host)
  have hrun1 := foldl_returned_iff (inputs ++ [Input.tick env1 host1]) _
    (init_returned_iff m env host)
  have hinit := init_pass m env host f m0 i0 e0 t0 hf h0
  have htick := tick_pass (Stream m env host inputs) env1 host1 m1 i1 e1 t1 hw h1
  have happ : ∀ i : Input, Stream m env host (inputs ++ [i])
      = Stream.step (Stream m env host inputs) i := by
    intro i
    unfold Stream
    rw [List.foldl_append]
    rfl
  have herr := Stream_waiting_err m env host inputs hw
  refine ⟨⟨getNotifications_err_ne_cached m m0 env i0 e0 t0 h0,
      getNotifications_err_ne_cached _ m1 env1 i1 e1 t1 h1⟩,
    hinit.1, hinit.2, ?_, ?_, ?_, ?_, loopTop_stop answer s hs, loopTop_push answer s hs,
    hrun.1, hrun.2, hrun1.1⟩
  · rw [happ]
    exact htick.1
  · rw [happ]
    exact htick.2
  · intro g hn hg
    rw [happ]
    exact ruleChanged_pass _ g hw herr hn hg
  · cases hans : Sink.Error answer s.err with
    | true =>
      rw [loopTop_stop answer s hs hans]
      exact ⟨[], rfl, by simp⟩
    | false =>
      rw [loopTop_push answer s hs hans]
      exact ⟨[Action.sinkOutput (s.outf s.info)], rfl, by simp⟩

theorem Stream_returns_iff_sink_stops_witness :
    (Stream New (replyEnv 0 threeRecords) false
        ([Input.set (fun _ => some (Output.text "new"))]
          ++ [Input.tick garbledEnv true])).trace
      = (Stream New (replyEnv 0 threeRecords) false
          [Input.set (fun _ => some (Output.text "new"))]).trace
        ++ Action.fetch
          :: Action.sinkError (some (Err.decode "invalid character"))
              (Sink.Error true (some (Err.decode "invalid character")))
          :: (if Sink.Error true (some (Err.decode "invalid character")) = true then []
              else [Action.sinkOutput
                      ((Stream New (replyEnv 0 threeRecords) false
                          [Input.set (fun _ => some (Output.text "new"))]).st.outf []),
                    Action.wait])
    ∧ (Stream New (replyEnv 0 threeRecords) false
        ([Input.set (fun _ => some (Output.text "new"))]
          ++ [Input.tick garbledEnv true])).status
      = (if Sink.Error true (some (Err.decode "invalid character")) = true
          then Status.returned else Status.waiting)
    ∧ (Stream New (replyEnv 0 threeRecords) false
        ([Input.set (fun _ => some (Output.text "new"))] ++ [Input.ruleChanged])).trace
      = (Stream New (replyEnv 0 threeRecords) false
          [Input.set (fun _ => some (Output.text "new"))]).trace
        ++ [Action.sinkError none false,
            Action.sinkOutput
              ((fun _ => some (Output.text "new"))
                (Stream New (replyEnv 0 threeRecords) false
                  [Input.set (fun _ => some (Output.text "new"))]).st.info),
            Action.wait] :=
  have h := Stream_returns_iff_sink_stops New (replyEnv 0 threeRecords) false
    [Input.set (fun _ => some (Output.text "new"))] _ _ _ _ _ garbledEnv true _ _ _ _ true
    ⟨fun _ => none, [], some (Err.decode "invalid character")⟩
    New_outputFunc
    (getNotifications_ok New (replyEnv 0 threeRecords) threeRecords rfl rfl rfl)
    (by decide)
    (getNotifications_garbled _ garbledEnv "invalid character" rfl rfl rfl)
    (by decide)
  ⟨h.2.2.2.1, h.2.2.2.2.1, (h.2.2.2.2.2.1 _ rfl rfl).1⟩

/-! ## Claims on the stream loop -/

/-- C5, as stated, fails: with the summary {mail:2, chat:1} held after the
first fetch, a tick whose reply does not decode leaves the loop holding the
nil summary, and with a host that lets the stream go on the output pushed is
the default rule applied to the nil summary (nil), not to the held one. -/
theorem decode_failure_keeps_summary_counterexample :
    (Stream New (replyEnv 0 threeRecords) false []).st.info = [("mail", 2), ("chat", 1)]
    ∧ (Stream New (replyEnv 0 threeRecords) false [Input.tick garbledEnv false]).st.info = []
    ∧ (Stream New (replyEnv 0 threeRecords) false [Input.tick garbledEnv false]).trace
        = [Action.fetch, Action.sinkError none false,
            Action.sinkOutput (some (Output.text "G5: 3")), Action.wait,
            Action.fetch, Action.sinkError (some (Err.decode "invalid character")) false,
            Action.sinkOutput none, Action.wait] := by
  decide

/-- C5 amended: a tick whose reply fails to decode replaces the held summary
by the nil summary returned with the error and leaves the held rule as it
was; the error is forwarded to the sink, and either the sink stops the stream
with no output pushed, or the output pushed is the held rule applied to the
nil summary. The only fetch result that keeps the held summary is the
`errCached` marker. -/
theorem decode_failure_replaces_summary (r : Run) (env : FetchEnv) (host : Bool)
    (msg : String) (hs : r.status = Status.waiting)
    (hd : env.dialOk = true) (hw : env.writeOk = true)
    (hr : env.reply = Except.error msg) :
    (Stream.step r (Input.tick env host)).st.info = []
    ∧ (Stream.step r (Input.tick env host)).st.outf = r.st.outf
    ∧ (host = true →
        (Stream.step r (Input.tick env host)).status = Status.returned
        ∧ (Stream.step r (Input.tick env host)).trace
            = r.trace ++ [Action.fetch, Action.sinkError (some (Err.decode msg)) true])
    ∧ (host = false →
        (Stream.step r (Input.tick env host)).status = Status.waiting
        ∧ (Stream.step r (Input.tick env host)).trace
            = r.trace ++ [Action.fetch, Action.sinkError (some (Err.decode msg)) false,
                Action.sinkOutput (r.st.outf []), Action.wait])
    ∧ (∀ (s : LoopState) (i : Notifications), (onTick s i (some Err.errCached)).info = s.info) := by
  rw [step_tick_ret r env host _ _ _ _ hs (getNotifications_garbled r.m env msg hd hw hr)]
  refine ⟨?_, ?_, ?_, ?_, ?_⟩
  · rw [(enterLoop_st _ host).2]
    simp [onTick]
  · rw [(enterLoop_st _ host).1]
    simp [onTick]
  · intro hh
    subst hh
    rw [enterLoop_stop _ true (by simp [onTick]) (by simp [onTick, Sink.Error])]
    simp [onTick]
  · intro hh
    subst hh
    rw [enterLoop_push _ false (by simp [onTick]) (by simp [onTick, Sink.Error])]
    simp [onTick]
  · intro s i
    simp [onTick]

theorem decode_failure_replaces_summary_witness :
    (Stream.step (Stream New (replyEnv 0 threeRecords) false [])
        (Input.tick garbledEnv false)).st.info = [] :=
  (decode_failure_replaces_summary (Stream New (replyEnv 0 threeRecords) false [])
    garbledEnv false "invalid character" (by decide) rfl rfl rfl).1

/-- C7, as stated, fails: two ticks in a row whose fetches succeed with the
same reply, and no rule change between them, leave the same summary held, and
the second one is followed by an output push like the first. -/
theorem identical_fetch_no_push_counterexample :
    (Stream New (replyEnv 0 threeRecords) false
        [Input.tick (replyEnv 0 threeRecords) false]).st.info
      = (Stream New (replyEnv 0 threeRecords) false
          [Input.tick (replyEnv 0 threeRecords) false,
            Input.tick (replyEnv 0 threeRecords) false]).st.info
    ∧ (Stream New (replyEnv 0 threeRecords) false
          [Input.tick (replyEnv 0 threeRecords) false,
            Input.tick (replyEnv 0 threeRecords) false]).trace
      = (Stream New (replyEnv 0 threeRecords) false
          [Input.tick (replyEnv 0 threeRecords) false]).trace
        ++ [Action.fetch, Action.sinkError none false,
            Action.sinkOutput (some (Output.text "G5: 3")), Action.wait] := by
  decide

/-- C7 amended: every tick whose fetch succeeds is followed by one output
push, the held rule applied to the fetched summary, also when that summary
equals the one held before; `getNotifications` never returns the `errCached`
marker, and only a pass whose fetch result is that marker makes no call to the
sink. -/
theorem successful_fetch_always_pushes (r : Run) (env : FetchEnv) (host : Bool)
    (l : List RoficationNotification) (hs : r.status = Status.waiting)
    (hd : env.dialOk = true) (hw : env.writeOk = true) (hr : env.reply = Except.ok l) :
    (Stream.step r (Input.tick env host)).trace
        = r.trace ++ [Action.fetch, Action.sinkError none false,
            Action.sinkOutput (r.st.outf (countByApplication l)), Action.wait]
    ∧ (Stream.step r (Input.tick env host)).st.info = countByApplication l
    ∧ (Stream.step r (Input.tick env host)).status = Status.waiting
    ∧ (∀ (m m1 : Module) (env1 : FetchEnv) (i : Notifications) (e : Option Err) (t : Int),
        getNotifications m env1 = FetchResult.ret m1 i e t → e ≠ some Err.errCached)
    ∧ (∀ (answer : Bool) (s : LoopState), s.err = some Err.errCached →
        (loopTop answer s).1 = [])
    ∧ (∀ (answer : Bool) (s : LoopState), s.err ≠ some Err.errCached →
        (loopTop answer s).1 ≠ []) := by
  rw [step_tick_ret r env host _ _ _ _ hs (getNotifications_ok r.m env l hd hw hr)]
  rw [enterLoop_push _ host (by simp [onTick]) (by simp [onTick, Sink.Error])]
  refine ⟨by simp [onTick], by simp [onTick], rfl, ?_, ?_, ?_⟩
  · intro m m1 env1 i e t h
    exact getNotifications_err_ne_cached m m1 env1 i e t h
  · intro answer s h
    rw [loopTop_cached answer s h]
  · intro answer s h
    cases hans : Sink.Error answer s.err with
    | true =>
      rw [loopTop_stop answer s h hans]
      simp
    | false =>
      rw [loopTop_push answer s h hans]
      simp

theorem successful_fetch_always_pushes_witness :
    (Stream.step (Stream New (replyEnv 0 threeRecords) false [])
        (Input.tick (replyEnv 0 threeRecords) false)).st.info
      = countByApplication threeRecords :=
  (successful_fetch_always_pushes (Stream New (replyEnv 0 threeRecords) false [])
    (replyEnv 0 threeRecords) false threeRecords (by decide) rfl rfl rfl).2.1

/-- C10, as stated, fails: with the interval of 10 s set by `New` and a reply
that takes 2 s to arrive, the fetch returns at 2 s and the scheduler is due at
10 s, which is 8 s after the return and not 10 s after it. -/
theorem timer_from_completion_counterexample :
    (getNotifications New (replyEnv (2 * Second) threeRecords)).finished = some (2 * Second)
    ∧ (getNotifications New (replyEnv (2 * Second) threeRecords)).deadline
        = some (2 * Second + 8 * Second)
    ∧ (getNotifications New (replyEnv (2 * Second) threeRecords)).deadline
        ≠ some (2 * Second + 10 * Second) := by
  decide

/-- C10 amended: `getNotifications` arms the scheduler once the request has
been written and before the reply is read: it is due `interval` seconds after
the write, whatever the reply and however long it takes, while the fetch
returns `readTime` later than the write; with the interval of `New` the timer
is due 10 s after the request was sent. -/
theorem timer_armed_before_reply (m : Module) (env : FetchEnv)
    (hd : env.dialOk = true) (hw : env.writeOk = true) :
    (getNotifications m env).deadline
        = some (env.now + env.dialTime + env.writeTime + wrapInt (m.interval * Second))
    ∧ (getNotifications m env).finished
        = some (env.now + env.dialTime + env.writeTime + env.readTime)
    ∧ (getNotifications New env).deadline
        = some (env.now + env.dialTime + env.writeTime + 10 * Second) := by
  have key : ∀ m0 : Module, (getNotifications m0 env).deadline
        = some (env.now + env.dialTime + env.writeTime + wrapInt (m0.interval * Second))
      ∧ (getNotifications m0 env).finished
        = some (env.now + env.dialTime + env.writeTime + env.readTime) := by
    intro m0
    cases hr : env.reply with
    | error msg =>
      rw [getNotifications_garbled m0 env msg hd hw hr]
      exact ⟨rfl, rfl⟩
    | ok l =>
      rw [getNotifications_ok m0 env l hd hw hr]
      exact ⟨rfl, rfl⟩
  refine ⟨(key m).1, (key m).2, ?_⟩
  rw [(key New).1]
  rfl

theorem timer_armed_before_reply_witness :
    (getNotifications New (replyEnv (2 * Second) threeRecords)).deadline
      = some (0 + 0 + 0 + 10 * Second) :=
  (timer_armed_before_reply New (replyEnv (2 * Second) threeRecords) rfl rfl).2.2

theorem step_tick_slot (r : Run) (env : FetchEnv) (host : Bool) :
    (Stream.step r (Input.tick env host)).m.outputFunc = r.m.outputFunc
    ∧ (Stream.step r (Input.tick env host)).notified = r.notified := by
  by_cases hs : r.status = Status.waiting
  · cases hg : getNotifications r.m env with
    | fatal msg =>
      rw [step_tick_fatal r env host msg hs hg]
      exact ⟨rfl, rfl⟩
    | ret m1 i e t =>
      rw [step_tick_ret r env host m1 i e t hs hg]
      rw [(enterLoop_m _ host).1, (enterLoop_m _ host).2]
      exact ⟨getNotifications_keeps_rule r.m m1 env i e t hg, rfl⟩
  · have : Stream.step r (Input.tick env host) = r := by
      simp [Stream.step, hs]
    rw [this]
    exact ⟨rfl, rfl⟩

theorem foldl_ticks_slot (ticks : List (FetchEnv × Bool)) (r : Run) :
    (List.foldl Stream.step r (ticks.map tickOf)).m.outputFunc = r.m.outputFunc
    ∧ (List.foldl Stream.step r (ticks.map tickOf)).notified = r.notified := by
  induction ticks generalizing r with
  | nil => exact ⟨rfl, rfl⟩
  | cons p rest ih =>
    simp only [List.map_cons, List.foldl_cons]
    obtain ⟨h1, h2⟩ := ih (Stream.step r (tickOf p))
    obtain ⟨h3, h4⟩ := step_tick_slot r p.1 p.2
    exact ⟨h1.trans h3, h2.trans h4⟩

theorem enterLoop_acts (r : Run) (host : Bool) :
    ∃ acts, (enterLoop r host).trace = r.trace ++ acts
      ∧ ∀ o, Action.sinkOutput o ∈ acts → o = r.st.outf r.st.info := by
  by_cases hc : r.st.err = some Err.errCached
  · rw [enterLoop_cached r host hc]
    exact ⟨[Action.wait], rfl, by simp⟩
  · cases hs : Sink.Error host r.st.err with
    | true =>
      rw [enterLoop_stop r host hc hs]
      exact ⟨[Action.sinkError r.st.err true], rfl, by simp⟩
    | false =>
      rw [enterLoop_push r host hc hs]
      exact ⟨_, rfl, by simp⟩

/-- C6: when the loop, blocked in the `select` and holding the summary
`S`, takes the rule-change case after `m.Output(f)` was the last call of
`Output` (ticks may have come in between), it makes no fetch and leaves the
module and `S` as they were, holds `f` from then on, and the calls it makes
are `sink.Error(nil)`, answered false, then `sink.Output(f(S))`, before it
waits again: the rule change is followed by a push with the new rule. -/
theorem rule_change_pushes_with_new_rule (m : Module) (env : FetchEnv) (host : Bool)
    (inputs : List Input) (f : Rule) (ticks : List (FetchEnv × Bool))
    (hs : (Stream m env host (inputs ++ Input.set f :: ticks.map tickOf)).status
            = Status.waiting) :
    (Stream m env host
        (inputs ++ Input.set f :: ticks.map tickOf ++ [Input.ruleChanged])).st.outf = f
    ∧ (Stream m env host
        (inputs ++ Input.set f :: ticks.map tickOf ++ [Input.ruleChanged])).st.info
      = (Stream m env host (inputs ++ Input.set f :: ticks.map tickOf)).st.info
    ∧ (Stream m env host
        (inputs ++ Input.set f :: ticks.map tickOf ++ [Input.ruleChanged])).trace
      = (Stream m env host (inputs ++ Input.set f :: ticks.map tickOf)).trace
        ++ [Action.sinkError none false,
            Action.sinkOutput
              (f (Stream m env host (inputs ++ Input.set f :: ticks.map tickOf)).st.info),
            Action.wait]
    ∧ (Stream m env host
        (inputs ++ Input.set f :: ticks.map tickOf ++ [Input.ruleChanged])).m
      = (Stream m env host (inputs ++ Input.set f :: ticks.map tickOf)).m
    ∧ (Stream m env host
        (inputs ++ Input.set f :: ticks.map tickOf ++ [Input.ruleChanged])).status
      = Status.waiting := by
  have herr := Stream_waiting_err m env host _ hs
  have hslot : (Stream m env host (inputs ++ Input.set f :: ticks.map tickOf)).m.outputFunc
        = some f
      ∧ (Stream m env host (inputs ++ Input.set f :: ticks.map tickOf)).notified = true := by
    unfold Stream
    rw [List.foldl_append, List.foldl_cons]
    obtain ⟨h1, h2⟩ := foldl_ticks_slot ticks
      (Stream.step (List.foldl Stream.step (Stream.init m env host) inputs) (Input.set f))
    rw [h1, h2, step_set]
    exact ⟨rfl, rfl⟩
  have hstep : Stream m env host
        (inputs ++ Input.set f :: ticks.map tickOf ++ [Input.ruleChanged])
      = Stream.step (Stream m env host (inputs ++ Input.set f :: ticks.map tickOf))
          Input.ruleChanged := by
    unfold Stream
    rw [List.foldl_append]
    rfl
  rw [hstep, step_ruleChanged _ f hs hslot.2 hslot.1]
  rw [enterLoop_push _ false (by simp [herr]) (by simp [herr, Sink.Error])]
  simp [herr]

theorem rule_change_pushes_with_new_rule_witness :
    (Stream New (replyEnv 0 threeRecords) false
        ([] ++ Input.set (fun _ => some (Output.text "new"))
          :: [(replyEnv 0 threeRecords, false)].map tickOf ++ [Input.ruleChanged])).trace
      = (Stream New (replyEnv 0 threeRecords) false
          ([] ++ Input.set (fun _ => some (Output.text "new"))
            :: [(replyEnv 0 threeRecords, false)].map tickOf)).trace
        ++ [Action.sinkError none false,
            Action.sinkOutput
              ((fun _ => some (Output.text "new"))
                (Stream New (replyEnv 0 threeRecords) false
                  ([] ++ Input.set (fun _ => some (Output.text "new"))
                    :: [(replyEnv 0 threeRecords, false)].map tickOf)).st.info),
            Action.wait] :=
  (rule_change_pushes_with_new_rule New (replyEnv 0 threeRecords) false []
    (fun _ => some (Output.text "new")) [(replyEnv 0 threeRecords, false)]
    (by decide)).2.2.1

theorem init_ok (m : Module) (env : FetchEnv) (host : Bool) (f : Rule)
    (l : List RoficationNotification) (hf : m.outputFunc = some f)
    (hd : env.dialOk = true) (hw : env.writeOk = true) (hr : env.reply = Except.ok l) :
    (Stream.init m env host).trace
        = [Action.fetch, Action.sinkError none false,
            Action.sinkOutput (f (countByApplication l)), Action.wait]
    ∧ (Stream.init m env host).st.info = countByApplication l
    ∧ (Stream.init m env host).st.outf = f
    ∧ (Stream.init m env host).status = Status.waiting := by
  unfold Stream.init
  simp only [hf, getNotifications_ok m env l hd hw hr]
  rw [enterLoop_push _ host (by simp) (by simp [Sink.Error])]
  simp

theorem step_acts (r : Run) (i : Input) (hs : r.status = Status.waiting) :
    (∃ acts, (Stream.step r i).trace = r.trace ++ acts
      ∧ ∀ o, Action.sinkOutput o ∈ acts →
          o = (Stream.step r i).st.outf (Stream.step r i).st.info)
    ∧ (∀ env host, i = Input.tick env host →
        ∀ m1 s e t, getNotifications r.m env = FetchResult.ret m1 s e t →
          (Stream.step r i).st.info = s)
    ∧ ((∀ env host, i ≠ Input.tick env host) → (Stream.step r i).st.info = r.st.info) := by
  cases i with
  | set f =>
    rw [step_set]
    exact ⟨⟨[], by simp, by simp⟩, by simp, fun _ => rfl⟩
  | ruleChanged =>
    refine ⟨?_, by simp, fun _ => ?_⟩
    · by_cases hn : r.notified = true
      · cases hf : r.m.outputFunc with
        | none =>
          have : Stream.step r Input.ruleChanged = { r with status := Status.panicked } := by
            simp [Stream.step, hs, hn, hf]
          rw [this]
          exact ⟨[], by simp, by simp⟩
        | some f =>
          rw [step_ruleChanged r f hs hn hf]
          obtain ⟨acts, h1, h2⟩ :=
            enterLoop_acts { r with notified := false, st := { r.st with outf := f } } false
          refine ⟨acts, h1, fun o ho => ?_⟩
          rw [(enterLoop_st _ false).1, (enterLoop_st _ false).2]
          exact h2 o ho
      · have : Stream.step r Input.ruleChanged = r := by
          simp [Stream.step, hs, hn]
        rw [this]
        exact ⟨[], by simp, by simp⟩
    · by_cases hn : r.notified = true
      · cases hf : r.m.outputFunc with
        | none => simp [Stream.step, hs, hn, hf]
        | some f =>
          rw [step_ruleChanged r f hs hn hf, (enterLoop_st _ false).2]
      · simp [Stream.step, hs, hn]
  | tick env host =>
    refine ⟨?_, ?_, fun h => absurd rfl (h env host)⟩
    · cases hg : getNotifications r.m env with
      | fatal msg =>
        rw [step_tick_fatal r env host msg hs hg]
        exact ⟨[Action.fetch], rfl, by simp⟩
      | ret m1 s e t =>
        rw [step_tick_ret r env host m1 s e t hs hg]
        obtain ⟨acts, h1, h2⟩ :=
          enterLoop_acts { r with m := m1, st := onTick r.st s e,
                                  trace := r.trace ++ [Action.fetch] } host
        refine ⟨Action.fetch :: acts, by simpa using h1, fun o ho => ?_⟩
        rw [(enterLoop_st _ host).1, (enterLoop_st _ host).2]
        apply h2 o
        simpa using ho
    · intro env1 host1 heq m1 s e t hg
      injection heq with h1 h2
      subst h1
      subst h2
      rw [step_tick_ret r env host m1 s e t hs hg, (enterLoop_st _ host).2]
      simp [onTick, getNotifications_err_ne_cached r.m m1 env s e t hg]

/-- C9, as stated, fails: after the first fetch returned {mail:2, chat:1}, a
tick whose reply does not decode, forwarded to a host that lets the stream go
on, is followed by the output nil, which is the held rule applied to the nil
summary, while the held rule applied to {mail:2, chat:1} is the text
"G5: 3"; no successful fetch came in between. -/
theorem push_after_failed_fetch_counterexample :
    (Stream New (replyEnv 0 threeRecords) false [Input.tick garbledEnv false]).trace
        = (Stream New (replyEnv 0 threeRecords) false []).trace
          ++ [Action.fetch, Action.sinkError (some (Err.decode "invalid character")) false,
              Action.sinkOutput none, Action.wait]
    ∧ (Stream New (replyEnv 0 threeRecords) false [Input.tick garbledEnv false]).st.outf
          [("mail", 2), ("chat", 1)]
        = some (Output.text "G5: 3")
    ∧ (Stream New (replyEnv 0 threeRecords) false [Input.tick garbledEnv false]).st.outf []
        = none := by
  decide

/-- C9 amended: a fetch that succeeds with the summary `S`, be it the first
one made before any wait or one made on a tick, is followed at once, before
the loop waits, by the push of the held rule applied to `S`; and every output
pushed in a pass is the held rule applied to the held summary, which is the
summary returned by the latest fetch (`S` after a success, the nil summary
after a reply that failed to decode) and is left as it was by every other
event, so never an earlier summary. -/
theorem pushes_use_latest_fetch (m : Module) (env : FetchEnv) (host : Bool) (f : Rule)
    (l : List RoficationNotification) (r : Run) (i : Input)
    (hf : m.outputFunc = some f)
    (hd : env.dialOk = true) (hw : env.writeOk = true) (hr : env.reply = Except.ok l)
    (hs : r.status = Status.waiting) :
    ((Stream.init m env host).trace
        = [Action.fetch, Action.sinkError none false,
            Action.sinkOutput (f (countByApplication l)), Action.wait]
      ∧ (Stream.init m env host).st.info = countByApplication l)
    ∧ ((Stream.step r (Input.tick env host)).trace
        = r.trace ++ [Action.fetch, Action.sinkError none false,
            Action.sinkOutput (r.st.outf (countByApplication l)), Action.wait]
      ∧ (Stream.step r (Input.tick env host)).st.info = countByApplication l)
    ∧ (∃ acts, (Stream.step r i).trace = r.trace ++ acts
        ∧ ∀ o, Action.sinkOutput o ∈ acts →
            o = (Stream.step r i).st.outf (Stream.step r i).st.info)
    ∧ (∀ env1 host1, i = Input.tick env1 host1 →
        ∀ m1 s e t, getNotifications r.m env1 = FetchResult.ret m1 s e t →
          (Stream.step r i).st.info = s)
    ∧ ((∀ env1 host1, i ≠ Input.tick env1 host1) →
        (Stream.step r i).st.info = r.st.info) := by
  obtain ⟨h1, h2, _, _⟩ := init_ok m env host f l hf hd hw hr
  obtain ⟨h3, h4, h5⟩ := step_acts r i hs
  refine ⟨⟨h1, h2⟩, ?_, h3, h4, h5⟩
  rw [step_tick_ret r env host _ _ _ _ hs (getNotifications_ok r.m env l hd hw hr)]
  rw [enterLoop_push _ host (by simp [onTick]) (by simp [onTick, Sink.Error])]
  exact ⟨by simp [onTick], by simp [onTick]⟩

theorem pushes_use_latest_fetch_witness :
    (Stream.init New (replyEnv 0 threeRecords) false).trace
      = [Action.fetch, Action.sinkError none false,
          Action.sinkOutput
            ((fun n =>
                if Notifications.Total n = 0 then none
                else some (Textf "G5: " (Notifications.Total n)))
              (countByApplication threeRecords)),
          Action.wait] :=
  (pushes_use_latest_fetch New (replyEnv 0 threeRecords) false _ threeRecords
    (Stream.init New (replyEnv 0 threeRecords) false) Input.ruleChanged
    New_outputFunc rfl rfl rfl (by decide)).1.1

end Baristafication
